import Mathlib

/-!
A verification development for the experiment-orchestration module
(`src/experiment.py`): a shallow embedding of its data model and operations,
together with theorems about serialization, configuration merging, the case
enumeration and the run loop.

External collaborator classes (`sim_interaction.Observable`,
`sim_interaction.Disturbance`, `pf_dynamic.System`, `control.Controller`,
numpy's formatting routine and the pyramses engine) are not part of the
module; they are modelled at their interface boundary: value types are type
parameters carrying the total order the module relies on, numeric formatting
and the engine are modelled from their specified contracts.
-/

namespace ExperimentSpec

/-- A decimal number `m / 10 ^ e`.  Every numeric literal fed to the settings
map in the source is a decimal literal, so numeric setting values are embedded
as exact decimals. -/
structure Dec where
  m : Int
  e : Nat
deriving DecidableEq

/-- Little-endian base-10 digits of `n`, with explicit fuel so that the
definition is structurally recursive (and hence kernel-evaluable). -/
def natDigitsAux : Nat → Nat → List Nat
  | 0, _ => []
  | fuel + 1, n => if n = 0 then [] else (n % 10) :: natDigitsAux fuel (n / 10)

/-- The character for a single decimal digit `d < 10`. -/
def digitChar (d : Nat) : Char := Char.ofNat (48 + d)

/-- Big-endian decimal digit characters of a natural number. -/
def natChars (n : Nat) : List Char :=
  if n = 0 then ['0'] else ((natDigitsAux n n).map digitChar).reverse

/-- Modelled from the spec: `np.format_float_positional` (numpy is an external
collaborator).  The spec requires that every numeric value is rendered in
fixed-point decimal, never in scientific notation; the rendering is sign,
integer part, `'.'`, fractional part. -/
def format_float_positional (d : Dec) : String :=
  let ds := natChars d.m.natAbs
  let padded := List.replicate (d.e + 1 - ds.length) '0' ++ ds
  let cut := padded.length - d.e
  (if d.m < 0 then "-" else "") ++
    String.mk (padded.take cut) ++ "." ++ String.mk (padded.drop cut)

/-- A RAMSES setting value: a string token, a numeric scalar, or a numeric
tuple (`Union[str, float]` plus the tuple-valued defaults in the source). -/
inductive SettingVal where
  | str : String → SettingVal
  | num : Dec → SettingVal
  | tup : List Dec → SettingVal
deriving DecidableEq

/-- Python's `" ".join`. -/
def joinSep : List String → String
  | [] => ""
  | [s] => s
  | s :: t :: rest => s ++ " " ++ joinSep (t :: rest)

/-- Helper `val2str` from `Experiment.get_settings_str`: tuples become space-separated
formatted components, non-strings are formatted positionally, strings pass
through. -/
def val2str : SettingVal → String
  | .tup ds => joinSep (ds.map format_float_positional)
  | .num d => format_float_positional d
  | .str s => s

/-- An argument passed to a Python method: either an instance of the expected
class or some other object (for which the `isinstance` check fails). -/
inductive PyArg (α : Type) where
  | val : α → PyArg α
  | invalid : PyArg α

/-- Whether the argument passes the `isinstance` check. -/
def PyArg.isVal {α : Type} : PyArg α → Bool
  | .val _ => true
  | .invalid => false

/-- The underlying values of the arguments that pass the `isinstance` check. -/
def pyVals {α : Type} (l : List (PyArg α)) : List α :=
  l.filterMap fun a => match a with | .val x => some x | .invalid => none

/-- The state of an `Experiment` object (`Experiment.__init__` attributes).
`Sys`, `Ctrl`, `Dist`, `Obs` are the external value types for systems,
controllers, disturbances and observables; a `Randomization` is represented by
its description string. -/
structure Experiment (Sys Ctrl Dist Obs : Type) where
  name : String
  DLL_dir : String
  repetitions : Nat
  must_document : Bool
  description : String
  systems : List (String × Sys)
  controllers : List (String × List Ctrl)
  disturbances : List (String × List Dist)
  observables : List Obs
  randomizations : List (String × String)
  settings : List (String × SettingVal)
  solver_settings : List (String × SettingVal)
  warning_voltages : ℚ × ℚ
  error_voltages : ℚ × ℚ
  disturbance_window : ℚ
  horizon : ℚ
  pyramses_step : ℚ
  current_repetition : Nat

namespace Experiment

/-- The recognized RAMSES setting names (class attribute `setting_names`). -/
def setting_names : List String :=
  ["PLOT_STEP", "GP_REFRESH_RATE", "DISP_PROF", "T_LOAD_REST", "OMEGA_REF",
   "S_BASE", "NEWTON_TOLER", "FIN_DIFFER", "FULL_UPDATE", "SKIP_CONV",
   "LATENCY", "SCHEME", "NB_THREADS", "SPARSE_SOLVER", "OMP", "NET_FREQ_UPD"]

/-- The recognized solver setting names (class attribute
`solver_setting_names`). -/
def solver_setting_names : List String :=
  ["disc_method", "max_h", "min_h", "latency", "upd_over"]

/-- The default settings map built in `__init__` (insertion order preserved;
note that `LATENCY`, `OMP` and `NET_FREQ_UPD` have no default entry). -/
def default_settings : List (String × SettingVal) :=
  [("PLOT_STEP", .num ⟨1, 3⟩),
   ("GP_REFRESH_RATE", .num ⟨1, 0⟩),
   ("DISP_PROF", .str "T"),
   ("T_LOAD_REST", .num ⟨5, 3⟩),
   ("OMEGA_REF", .str "COI"),
   ("S_BASE", .num ⟨100, 0⟩),
   ("NEWTON_TOLER", .tup [⟨1, 3⟩, ⟨1, 3⟩, ⟨1, 4⟩]),
   ("FIN_DIFFER", .tup [⟨1, 5⟩, ⟨1, 5⟩]),
   ("FULL_UPDATE", .str "T"),
   ("SKIP_CONV", .str "F"),
   ("SCHEME", .str "DE"),
   ("NB_THREADS", .num ⟨2, 0⟩),
   ("SPARSE_SOLVER", .str "KLU")]

/-- The default solver settings map built in `__init__`. -/
def default_solver_settings : List (String × SettingVal) :=
  [("disc_method", .str "BD"),
   ("max_h", .num ⟨1, 3⟩),
   ("min_h", .num ⟨1, 3⟩),
   ("latency", .num ⟨0, 0⟩),
   ("upd_over", .str "ABL")]

variable {Sys Ctrl Dist Obs : Type}

/-- The state built by `Experiment.__init__` after its validations pass (the
existence check on `DLL_dir` is environmental and outside the embedding). -/
def init (Sys Ctrl Dist Obs : Type) (name DLL_dir : String) (repetitions : Nat)
    (must_document : Bool) : Experiment Sys Ctrl Dist Obs where
  name := name
  DLL_dir := DLL_dir
  repetitions := repetitions
  must_document := must_document
  description := "No description was provided."
  systems := []
  controllers := []
  disturbances := []
  observables := []
  randomizations := [("Not random", "Not random")]
  settings := default_settings
  solver_settings := default_solver_settings
  warning_voltages := (17 / 20, 1)
  error_voltages := (7 / 10, 6 / 5)
  disturbance_window := 5
  horizon := 200
  pyramses_step := 20 / 1000
  current_repetition := 1

/-- Embedding of `Experiment.describe`. -/
def describe (description : String) (e : Experiment Sys Ctrl Dist Obs) :
    Experiment Sys Ctrl Dist Obs × Option String :=
  if description.length > 100 then
    (e, some "Description should have no more than 100 chars")
  else ({e with description := description}, none)

/-- Embedding of `Experiment.add_system` (the stored system is a deep copy; with value
semantics in the embedding, copying is the identity). -/
def add_system (description : String) (system : PyArg Sys)
    (e : Experiment Sys Ctrl Dist Obs) :
    Experiment Sys Ctrl Dist Obs × Option String :=
  if description.length > 10 then
    (e, some "Description should have no more than 10 characters.")
  else
    match system with
    | .invalid => (e, some "is not an instance of the System class.")
    | .val s => ({e with systems := e.systems ++ [(description, s)]}, none)

/-- Embedding of `Experiment.add_disturbances`: validate the description and every
argument, then append the batch sorted by the disturbances' natural order. -/
def add_disturbances [LinearOrder Dist] (description : String)
    (disturbances : List (PyArg Dist)) (e : Experiment Sys Ctrl Dist Obs) :
    Experiment Sys Ctrl Dist Obs × Option String :=
  if description.length > 10 then
    (e, some "Description should have no more than 10 characters.")
  else if disturbances.all PyArg.isVal then
    ({e with disturbances := e.disturbances ++
        [(description, List.insertionSort (· ≤ ·) (pyVals disturbances))]},
      none)
  else (e, some "is not an instance of the Disturbance class.")

/-- Embedding of `Experiment.add_observables`: each argument is checked and, if valid,
immediately inserted into the sorted observables list (`bisect.insort`); the
check of a later argument happens only after the earlier insertions. -/
def add_observables [LinearOrder Obs] :
    List (PyArg Obs) → Experiment Sys Ctrl Dist Obs →
      Experiment Sys Ctrl Dist Obs × Option String
  | [], e => (e, none)
  | .invalid :: _, e => (e, some "is not an instance of the Observable class.")
  | .val o :: rest, e =>
      add_observables rest
        {e with observables := List.orderedInsert (· ≤ ·) o e.observables}

/-- Embedding of `Experiment.add_controllers` (capability validation collapsed into the
validity of each argument; stored controllers are deep copies, which is the
identity for values). -/
def add_controllers (description : String) (controllers : List (PyArg Ctrl))
    (e : Experiment Sys Ctrl Dist Obs) :
    Experiment Sys Ctrl Dist Obs × Option String :=
  if description.length > 10 then
    (e, some "Description should have no more than 10 characters.")
  else if controllers.all PyArg.isVal then
    ({e with controllers := e.controllers ++ [(description, pyVals controllers)]},
      none)
  else (e, some "is not an instance of the Controller class.")

/-- Embedding of `Experiment.add_randomization`: the body of the method is empty, so the
call leaves the experiment unchanged. -/
def add_randomization (e : Experiment Sys Ctrl Dist Obs) :
    Experiment Sys Ctrl Dist Obs :=
  e

/-- Assignment `d[k] = v` on an insertion-ordered dictionary represented as an
association list: an existing key keeps its position, a new key is appended. -/
def dictSet (m : List (String × SettingVal)) (k : String) (v : SettingVal) :
    List (String × SettingVal) :=
  match m with
  | [] => [(k, v)]
  | (k', v') :: rest =>
      if k' = k then (k, v) :: rest else (k', v') :: dictSet rest k v

/-- First-match lookup on an association list (Python `d[k]`). -/
def lookupKey (key : String) : List (String × SettingVal) → Option SettingVal
  | [] => none
  | (k, v) :: rest => if k = key then some v else lookupKey key rest

/-- The update loop shared by `set_RAMSES_settings` and
`set_solver_and_horizon`: each pair is checked against the recognized names
and, if recognized, assigned at once; an unrecognized key raises immediately,
keeping the assignments already made. -/
def applyUpdates (names : List String) :
    List (String × SettingVal) → List (String × SettingVal) →
      List (String × SettingVal) × Option String
  | [], m => (m, none)
  | (k, v) :: rest, m =>
      if k ∈ names then applyUpdates names rest (dictSet m k v)
      else (m, some ("Unknown setting " ++ k ++ "."))

/-- Embedding of `Experiment.set_RAMSES_settings`. -/
def set_RAMSES_settings (settings_dict : List (String × SettingVal))
    (e : Experiment Sys Ctrl Dist Obs) :
    Experiment Sys Ctrl Dist Obs × Option String :=
  let r := applyUpdates setting_names settings_dict e.settings
  ({e with settings := r.1}, r.2)

/-- Embedding of `Experiment.set_solver_and_horizon`: a non-positive horizon raises before
any mutation; otherwise the horizon is replaced first and then the solver
settings are merged. -/
def set_solver_and_horizon (solver_settings_dict : List (String × SettingVal))
    (horizon : ℚ) (e : Experiment Sys Ctrl Dist Obs) :
    Experiment Sys Ctrl Dist Obs × Option String :=
  if horizon ≤ 0 then (e, some "Horizon must be positive.")
  else
    let r := applyUpdates solver_setting_names solver_settings_dict
      e.solver_settings
    ({e with horizon := horizon, solver_settings := r.1}, r.2)

/-- Embedding of `Experiment.get_dir`.  The wall-clock timestamp read by `get_timestamp`
is an input of the embedding (`now`). -/
def get_dir (now : String) (e : Experiment Sys Ctrl Dist Obs) : String :=
  if e.must_document then
    if e.repetitions = 1 then now ++ " " ++ e.name
    else now ++ " " ++ e.name ++ " (" ++ toString e.current_repetition ++ ")"
  else e.name

/-- Python's `str.ljust`: left-justify by padding with spaces on the right up
to the requested width. -/
def ljust (s : String) (w : Nat) : String :=
  s ++ String.mk (List.replicate (w - s.length) ' ')

/-- The `setting_width` column width computed in `get_settings_str`: the
widest setting name in the map, plus one. -/
def setting_width (m : List (String × SettingVal)) : Nat :=
  (m.map fun p => p.1.length).foldr max 0 + 1

/-- The `val_width` column width computed in `get_settings_str`: the widest
formatted value in the map, plus one. -/
def val_width (m : List (String × SettingVal)) : Nat :=
  (m.map fun p => (val2str p.2).length).foldr max 0 + 1

/-- Embedding of `Experiment.get_settings_str`: header plus one `$name value ;` line per
entry of the settings map, both column widths computed from the map itself. -/
def get_settings_str (e : Experiment Sys Ctrl Dist Obs) : String :=
  e.settings.foldl
    (fun text p =>
      text ++ ("$" ++ ljust p.1 (setting_width e.settings) ++
        ljust (val2str p.2) (val_width e.settings) ++ ";\n"))
    "# Simulation settings\n\n"

/-- Embedding of `Experiment.get_observables_str`: one line per element of the sorted,
deduplicated observables set, using the observable's own string form
(`obsStr`, supplied by the external `Observable` class). -/
def get_observables_str [LinearOrder Obs] (obsStr : Obs → String)
    (e : Experiment Sys Ctrl Dist Obs) : String :=
  String.join
    ((List.insertionSort (· ≤ ·) e.observables.dedup).map
      fun o => obsStr o ++ "\n")

/-- Embedding of `Experiment.case2str`. -/
def case2str (now : String) (e : Experiment Sys Ctrl Dist Obs)
    (system_description disturbance_description controller_description
      randomization_description : String) : String :=
  get_dir now e ++ "/" ++ system_description ++ ", " ++
    disturbance_description ++ ", " ++ controller_description ++ ", " ++
    randomization_description

/-- The list `case_dirs` enumerated by `Experiment.init_files_and_dirs`. -/
def case_dirs (now : String) (e : Experiment Sys Ctrl Dist Obs) :
    List String :=
  e.systems.flatMap fun sys =>
    e.disturbances.flatMap fun dis =>
      e.controllers.flatMap fun con =>
        e.randomizations.map fun ran =>
          case2str now e sys.1 dis.1 con.1 ran.1

end Experiment

/-- The outcome of one case of `Experiment.run`: the loop either exhausts the
time values, breaks on an out-of-band voltage before advancing, or breaks when
the engine raises. -/
inductive Outcome where
  | completed : Outcome
  | abortedOnDivergence : Outcome
  | abortedOnEngineError : Outcome
deriving DecidableEq

/-- Modelled from the spec: the external pyramses engine session, at its
interface boundary.  `volt t` is what `getBusVolt` returns when queried at
step `t`; `contSimFails t` tells whether `contSim(t)` raises. -/
structure Engine where
  volt : ℚ → List ℚ
  contSimFails : ℚ → Bool

/-- The voltage guard of the run loop: `all(vmin < v < vmax for v in vs)`. -/
def voltagesOK (vmin vmax : ℚ) (vs : List ℚ) : Bool :=
  vs.all fun v => decide (vmin < v) && decide (v < vmax)

/-- Modelled from the spec: `np.arange(0, horizon, h)` (numpy is external) — the fixed-increment list of step times from 0 up to, excluding, the horizon. -/
def timeValues (horizon h : ℚ) : List ℚ :=
  (List.range (Int.toNat ⌈horizon / h⌉)).map fun k : ℕ => (k : ℚ) * h

/-- The `for tk in time_values` loop of `Experiment.run`: at each step the bus
voltages are queried; past the disturbance window an out-of-band voltage
breaks the loop before `contSim(tk)` is called; a failing `contSim` breaks the
loop through the `except` clause.  The result is the list of times actually
passed to `contSim` and the outcome. -/
def runLoop (eng : Engine) (window vmin vmax : ℚ) :
    List ℚ → List ℚ × Outcome
  | [] => ([], .completed)
  | tk :: rest =>
      if window < tk ∧ voltagesOK vmin vmax (eng.volt tk) = false then
        ([], .abortedOnDivergence)
      else if eng.contSimFails tk then ([], .abortedOnEngineError)
      else
        (tk :: (runLoop eng window vmin vmax rest).1,
          (runLoop eng window vmin vmax rest).2)

/-- One case of `Experiment.run`, driven by the experiment's own horizon,
step, window and error band. -/
def runCase {Sys Ctrl Dist Obs : Type} (eng : Engine)
    (e : Experiment Sys Ctrl Dist Obs) : List ℚ × Outcome :=
  runLoop eng e.disturbance_window e.error_voltages.1 e.error_voltages.2
    (timeValues e.horizon e.pyramses_step)

/-- Whether a string contains a scientific-notation exponent marker. -/
def hasExpMarker (s : String) : Bool :=
  s.data.any fun c => c == 'e' || c == 'E'

/-- Whether the first list starts with the second one. -/
def startsWithChars : List Char → List Char → Bool
  | _, [] => true
  | [], _ :: _ => false
  | c :: cs, d :: ds => c == d && startsWithChars cs ds

/-- Whether the second list occurs contiguously inside the first one. -/
def hasInfixChars : List Char → List Char → Bool
  | [], needle => needle.isEmpty
  | c :: t, needle => startsWithChars (c :: t) needle || hasInfixChars t needle

/-- Whether a setting value is numeric (scalar or tuple). -/
def SettingVal.isNumeric : SettingVal → Bool
  | .str _ => false
  | .num _ => true
  | .tup _ => true

/-- Replaying a sequence of `add_observables` calls whose arguments are all
valid observables. -/
def add_observable_calls {Sys Ctrl Dist Obs : Type} [LinearOrder Obs]
    (calls : List (List Obs)) (e : Experiment Sys Ctrl Dist Obs) :
    Experiment Sys Ctrl Dist Obs :=
  calls.foldl (fun e c => (Experiment.add_observables (c.map PyArg.val) e).1) e

/-- A concrete experiment instance (`Experiment("test", ...)`) used to
evaluate the operations on explicit inputs. -/
def expNat : Experiment ℕ ℕ ℕ ℕ := Experiment.init ℕ ℕ ℕ ℕ "test" "dll" 1 false

section Lemmas

variable {Sys Ctrl Dist Obs : Type}

theorem pyVals_map_val {α : Type} (l : List α) : pyVals (l.map PyArg.val) = l := by
  induction l with
  | nil => rfl
  | cons a t ih => simp [pyVals, List.filterMap_cons] at ih ⊢; exact ih

theorem all_isVal_map_val {α : Type} (l : List α) :
    (l.map PyArg.val).all PyArg.isVal = true := by
  induction l with
  | nil => rfl
  | cons a t ih => simp [PyArg.isVal, ih]

theorem add_observables_invalid_eq [LinearOrder Obs] (pre : List Obs)
    (rest : List (PyArg Obs)) (e : Experiment Sys Ctrl Dist Obs) :
    Experiment.add_observables (pre.map PyArg.val ++ PyArg.invalid :: rest) e =
      ({e with observables :=
          pre.foldl (fun l o => List.orderedInsert (· ≤ ·) o l) e.observables},
        some "is not an instance of the Observable class.") := by
  induction pre generalizing e with
  | nil => rfl
  | cons o t ih => simpa [Experiment.add_observables] using ih _

theorem mem_foldl_orderedInsert [LinearOrder Obs] (pre l : List Obs) (o : Obs)
    (h : o ∈ pre ∨ o ∈ l) :
    o ∈ pre.foldl (fun acc a => List.orderedInsert (· ≤ ·) a acc) l := by
  induction pre generalizing l with
  | nil => simpa using h.resolve_left (by simp)
  | cons a t ih =>
      simp only [List.foldl_cons]
      apply ih
      rcases h with h | h
      · rcases List.mem_cons.mp h with rfl | h
        · right; simp [List.mem_orderedInsert]
        · left; exact h
      · right; simp [List.mem_orderedInsert, h]

end Lemmas

/-- C10: `add_observables` is not atomic: when the k-th argument fails the
`isinstance` check, the call raises, but every valid argument before it has
already been inserted into the sorted observables registry and remains
there. -/
theorem add_observables_not_atomic {Sys Ctrl Dist Obs : Type}
    [LinearOrder Obs] (e : Experiment Sys Ctrl Dist Obs) (pre : List Obs)
    (rest : List (PyArg Obs)) :
    Experiment.add_observables (pre.map PyArg.val ++ PyArg.invalid :: rest) e =
      ({e with observables :=
          pre.foldl (fun l o => List.orderedInsert (· ≤ ·) o l) e.observables},
        some "is not an instance of the Observable class.") ∧
    ∀ o ∈ pre,
      o ∈ (Experiment.add_observables
            (pre.map PyArg.val ++ PyArg.invalid :: rest) e).1.observables := by
  refine ⟨add_observables_invalid_eq pre rest e, ?_⟩
  intro o ho
  rw [add_observables_invalid_eq pre rest e]
  exact mem_foldl_orderedInsert pre e.observables o (Or.inl ho)

/-- C5: a fully validated `add_disturbances(tag, *ds)` call appends exactly
one batch at the end of the disturbance list, and that batch is `ds` sorted
by the disturbances' natural order. -/
theorem add_disturbances_sorted_batch {Sys Ctrl Dist Obs : Type}
    [LinearOrder Dist] (e : Experiment Sys Ctrl Dist Obs) (desc : String)
    (ds : List Dist) (hdesc : desc.length ≤ 10) :
    Experiment.add_disturbances desc (ds.map PyArg.val) e =
      ({e with disturbances := e.disturbances ++
          [(desc, List.insertionSort (· ≤ ·) ds)]}, none) ∧
    List.Perm (List.insertionSort (· ≤ ·) ds) ds ∧
    (List.insertionSort (· ≤ ·) ds).Sorted (· ≤ ·) := by
  refine ⟨?_, List.perm_insertionSort _ _, List.sorted_insertionSort _ _⟩
  unfold Experiment.add_disturbances
  rw [if_neg (by omega), if_pos (all_isVal_map_val ds), pyVals_map_val]

/-- C5 witness: a concrete validated call appends its batch, sorted, at the
end. -/
theorem add_disturbances_sorted_batch_witness :
    Experiment.add_disturbances "fault" ([3, 1, 2].map PyArg.val) expNat =
      ({expNat with disturbances := expNat.disturbances ++
          [("fault", List.insertionSort (· ≤ ·) [3, 1, 2])]}, none) :=
  (add_disturbances_sorted_batch expNat "fault" [3, 1, 2] (by decide)).1

theorem str_data_inj {a b : String} (h : a.data = b.data) : a = b := by
  cases a; cases b; exact congrArg String.mk h

/-- C6: with the wall-clock timestamp an explicit input, `case2str` is a pure
function — two calls on the same experiment with the same four tags return the
identical string — and changing any single one of the four tags while holding
the other three fixed changes the resulting path. -/
theorem case2str_deterministic_tag_sensitive {Sys Ctrl Dist Obs : Type}
    (now : String) (e : Experiment Sys Ctrl Dist Obs)
    (s d c r s' d' c' r' : String) :
    Experiment.case2str now e s d c r = Experiment.case2str now e s d c r ∧
    (s ≠ s' → Experiment.case2str now e s d c r ≠
      Experiment.case2str now e s' d c r) ∧
    (d ≠ d' → Experiment.case2str now e s d c r ≠
      Experiment.case2str now e s d' c r) ∧
    (c ≠ c' → Experiment.case2str now e s d c r ≠
      Experiment.case2str now e s d c' r) ∧
    (r ≠ r' → Experiment.case2str now e s d c r ≠
      Experiment.case2str now e s d c r') := by
  refine ⟨rfl, ?_, ?_, ?_, ?_⟩
  · intro hne heq
    apply hne
    have h0 := congrArg String.data heq
    simp only [Experiment.case2str, String.data_append, List.append_assoc] at h0
    exact str_data_inj
      (List.append_cancel_right
        (List.append_cancel_left (List.append_cancel_left h0)))
  · intro hne heq
    apply hne
    have h0 := congrArg String.data heq
    simp only [Experiment.case2str, String.data_append, List.append_assoc] at h0
    exact str_data_inj
      (List.append_cancel_right
        (List.append_cancel_left (List.append_cancel_left
          (List.append_cancel_left (List.append_cancel_left h0)))))
  · intro hne heq
    apply hne
    have h0 := congrArg String.data heq
    simp only [Experiment.case2str, String.data_append, List.append_assoc] at h0
    exact str_data_inj
      (List.append_cancel_right
        (List.append_cancel_left (List.append_cancel_left
          (List.append_cancel_left (List.append_cancel_left
            (List.append_cancel_left (List.append_cancel_left h0)))))))
  · intro hne heq
    apply hne
    have h0 := congrArg String.data heq
    simp only [Experiment.case2str, String.data_append, List.append_assoc] at h0
    exact str_data_inj
      (List.append_cancel_left (List.append_cancel_left
        (List.append_cancel_left (List.append_cancel_left
          (List.append_cancel_left (List.append_cancel_left
            (List.append_cancel_left (List.append_cancel_left h0))))))))

/-- C6 witness: changing the system tag alone changes the case path. -/
theorem case2str_deterministic_tag_sensitive_witness :
    Experiment.case2str "[ts]" expNat "s1" "dst" "ctl" "rnd" ≠
      Experiment.case2str "[ts]" expNat "s2" "dst" "ctl" "rnd" :=
  (case2str_deterministic_tag_sensitive "[ts]" expNat
    "s1" "dst" "ctl" "rnd" "s2" "dst" "ctl" "rnd").2.1 (by decide)

/-- The value assigned to `key` by the last update that mentions it, if any
(Python dict semantics: later assignments win). -/
def lastUpdate (updates : List (String × SettingVal)) (key : String) :
    Option SettingVal :=
  (updates.reverse.find? fun p => p.1 == key).map Prod.snd

section UpdateLemmas

open Experiment

theorem lookupKey_dictSet (m : List (String × SettingVal)) (k : String)
    (v : SettingVal) (key : String) :
    lookupKey key (dictSet m k v) =
      if k = key then some v else lookupKey key m := by
  induction m with
  | nil =>
      by_cases hk : k = key <;> simp [dictSet, lookupKey, hk]
  | cons p t ih =>
      obtain ⟨k', v'⟩ := p
      by_cases hk : k' = k
      · subst hk
        by_cases hkey : k' = key <;> simp [dictSet, lookupKey, hkey]
      · by_cases hkey : k' = key
        · subst hkey
          have hne : ¬(k = k') := fun h => hk h.symm
          simp [dictSet, hk, lookupKey, hne]
        · simp [dictSet, hk, lookupKey, hkey, ih]

theorem applyUpdates_valid (names : List String)
    (updates m : List (String × SettingVal))
    (h : ∀ p ∈ updates, p.1 ∈ names) :
    applyUpdates names updates m =
      (updates.foldl (fun acc p => dictSet acc p.1 p.2) m, none) := by
  induction updates generalizing m with
  | nil => rfl
  | cons p t ih =>
      obtain ⟨k, v⟩ := p
      have hk : k ∈ names := h (k, v) (by simp)
      simp only [applyUpdates, hk, if_pos, List.foldl_cons]
      exact ih _ fun q hq => h q (by simp [hq])

theorem applyUpdates_invalid (names : List String)
    (pre : List (String × SettingVal)) (k : String) (v : SettingVal)
    (rest m : List (String × SettingVal)) (hk : k ∉ names)
    (hpre : ∀ p ∈ pre, p.1 ∈ names) :
    applyUpdates names (pre ++ (k, v) :: rest) m =
      (pre.foldl (fun acc p => dictSet acc p.1 p.2) m,
        some ("Unknown setting " ++ k ++ ".")) := by
  induction pre generalizing m with
  | nil => simp [applyUpdates, hk]
  | cons p t ih =>
      obtain ⟨k', v'⟩ := p
      have hk' : k' ∈ names := hpre (k', v') (by simp)
      simp only [List.cons_append, applyUpdates, hk', if_pos, List.foldl_cons]
      exact ih _ fun q hq => hpre q (by simp [hq])

theorem lookupKey_foldl_dictSet (updates m : List (String × SettingVal))
    (key : String) :
    lookupKey key (updates.foldl (fun acc p => dictSet acc p.1 p.2) m) =
      match lastUpdate updates key with
      | some v => some v
      | none => lookupKey key m := by
  induction updates generalizing m with
  | nil => simp [lastUpdate]
  | cons p t ih =>
      obtain ⟨k, v⟩ := p
      rw [List.foldl_cons, ih]
      unfold lastUpdate
      rw [List.reverse_cons, List.find?_append]
      cases hfind : t.reverse.find? fun q => q.1 == key with
      | some q => simp [Option.or]
      | none =>
          by_cases hk : k = key <;>
            simp [Option.or, List.find?_cons, hk, lookupKey_dictSet]

end UpdateLemmas

/-- C2 (amended): `set_RAMSES_settings` with only recognized keys merges the
updates into the settings map (the last value for a key winning, lookups on
other keys unchanged) and raises nothing; an unrecognized key raises, but the
assignments strictly before the first unrecognized key have already been made
(the map is not rolled back). -/
theorem set_RAMSES_settings_merge {Sys Ctrl Dist Obs : Type}
    (e : Experiment Sys Ctrl Dist Obs) (upd : List (String × SettingVal)) :
    ((∀ p ∈ upd, p.1 ∈ Experiment.setting_names) →
      (Experiment.set_RAMSES_settings upd e).2 = none ∧
      ∀ key, Experiment.lookupKey key
          (Experiment.set_RAMSES_settings upd e).1.settings =
        match lastUpdate upd key with
        | some v => some v
        | none => Experiment.lookupKey key e.settings) ∧
    (∀ pre k v rest, upd = pre ++ (k, v) :: rest →
      k ∉ Experiment.setting_names →
      (∀ p ∈ pre, p.1 ∈ Experiment.setting_names) →
      Experiment.set_RAMSES_settings upd e =
        ({e with settings :=
            pre.foldl (fun acc p => Experiment.dictSet acc p.1 p.2) e.settings},
          some ("Unknown setting " ++ k ++ "."))) := by
  constructor
  · intro h
    unfold Experiment.set_RAMSES_settings
    rw [applyUpdates_valid _ _ _ h]
    exact ⟨rfl, fun key => lookupKey_foldl_dictSet upd e.settings key⟩
  · intro pre k v rest hupd hk hpre
    subst hupd
    unfold Experiment.set_RAMSES_settings
    rw [applyUpdates_invalid _ _ _ _ _ _ hk hpre]

/-- C2 witness: a merge containing only the recognized key `PLOT_STEP` raises
nothing. -/
theorem set_RAMSES_settings_merge_witness :
    (Experiment.set_RAMSES_settings [("PLOT_STEP", .num ⟨5, 0⟩)] expNat).2 =
      none :=
  ((set_RAMSES_settings_merge expNat [("PLOT_STEP", .num ⟨5, 0⟩)]).1
    (by decide)).1

/-- C2 counterexample: a call whose second key is unrecognized raises, yet the
settings map is no longer the prior map — the first (recognized) key has
already been overwritten, so an error does not leave the map unchanged. -/
theorem set_RAMSES_settings_error_mutates_cex :
    ((Experiment.set_RAMSES_settings
        [("PLOT_STEP", .num ⟨5, 0⟩), ("NOPE", .str "x")] expNat).2).isSome =
      true ∧
    (Experiment.set_RAMSES_settings
        [("PLOT_STEP", .num ⟨5, 0⟩), ("NOPE", .str "x")] expNat).1.settings ≠
      expNat.settings := by
  constructor
  · decide
  · decide

/-- C8 (amended): `set_solver_and_horizon` raises on a non-positive horizon
before any mutation; with a positive horizon it replaces the stored horizon
and merges recognized solver keys (raising nothing when all keys are
recognized); when some key is unrecognized it raises, but the horizon has
already been replaced and the assignments before the offending key have
already been made. -/
theorem set_solver_and_horizon_merge {Sys Ctrl Dist Obs : Type}
    (e : Experiment Sys Ctrl Dist Obs) (upd : List (String × SettingVal))
    (hz : ℚ) :
    (hz ≤ 0 → Experiment.set_solver_and_horizon upd hz e =
      (e, some "Horizon must be positive.")) ∧
    (0 < hz → (∀ p ∈ upd, p.1 ∈ Experiment.solver_setting_names) →
      (Experiment.set_solver_and_horizon upd hz e).2 = none ∧
      (Experiment.set_solver_and_horizon upd hz e).1.horizon = hz ∧
      ∀ key, Experiment.lookupKey key
          (Experiment.set_solver_and_horizon upd hz e).1.solver_settings =
        match lastUpdate upd key with
        | some v => some v
        | none => Experiment.lookupKey key e.solver_settings) ∧
    (0 < hz → ∀ pre k v rest, upd = pre ++ (k, v) :: rest →
      k ∉ Experiment.solver_setting_names →
      (∀ p ∈ pre, p.1 ∈ Experiment.solver_setting_names) →
      Experiment.set_solver_and_horizon upd hz e =
        ({e with
            horizon := hz,
            solver_settings := (pre.foldl
              (fun acc p => Experiment.dictSet acc p.1 p.2) e.solver_settings)},
          some ("Unknown setting " ++ k ++ "."))) := by
  refine ⟨fun hle => ?_, fun hpos h => ?_, fun hpos pre k v rest hupd hk hpre => ?_⟩
  · unfold Experiment.set_solver_and_horizon
    rw [if_pos hle]
  · unfold Experiment.set_solver_and_horizon
    rw [if_neg (not_le.mpr hpos), applyUpdates_valid _ _ _ h]
    exact ⟨rfl, rfl, fun key => lookupKey_foldl_dictSet upd e.solver_settings key⟩
  · subst hupd
    unfold Experiment.set_solver_and_horizon
    rw [if_neg (not_le.mpr hpos), applyUpdates_invalid _ _ _ _ _ _ hk hpre]

/-- C8 witness: a non-positive horizon raises and leaves the experiment
unchanged. -/
theorem set_solver_and_horizon_merge_witness :
    Experiment.set_solver_and_horizon [] (-1 : ℚ) expNat =
      (expNat, some "Horizon must be positive.") :=
  (set_solver_and_horizon_merge expNat [] (-1)).1 (by norm_num)

/-- C8 counterexample: a call with a positive horizon and an unrecognized
solver key raises, yet the stored horizon has been replaced (50 instead of the
prior default 200), so the error case does not leave the horizon unchanged. -/
theorem set_solver_and_horizon_error_mutates_cex :
    ((Experiment.set_solver_and_horizon [("nope", .str "x")] 50 expNat).2).isSome =
      true ∧
    (Experiment.set_solver_and_horizon [("nope", .str "x")] 50 expNat).1.horizon ≠
      expNat.horizon := by
  constructor
  · decide
  · decide

theorem data_mk (l : List Char) : (String.mk l).data = l := rfl

theorem empty_append_str (s : String) : "" ++ s = s :=
  str_data_inj (by
    rw [String.data_append, show ("" : String).data = [] from rfl,
      List.nil_append])

theorem join_cons_str (s : String) (l : List String) :
    String.join (s :: l) = s ++ String.join l := by
  have gen : ∀ (l : List String) (a : String),
      l.foldl (fun r s => r ++ s) a = a ++ l.foldl (fun r s => r ++ s) "" := by
    intro l
    induction l with
    | nil => intro a; exact (String.append_empty a).symm
    | cons x t ih =>
        intro a
        rw [List.foldl_cons, List.foldl_cons, ih (a ++ x), ih ("" ++ x),
          empty_append_str, String.append_assoc]
  show (s :: l).foldl (fun r s => r ++ s) "" = s ++ l.foldl (fun r s => r ++ s) ""
  rw [List.foldl_cons, gen l ("" ++ s), empty_append_str]

theorem foldl_append_text {α : Type} (l : List α) (f : α → String)
    (init : String) :
    l.foldl (fun text p => text ++ f p) init = init ++ String.join (l.map f) := by
  induction l generalizing init with
  | nil => exact (String.append_empty init).symm
  | cons p t ih =>
      rw [List.foldl_cons, ih, List.map_cons, join_cons_str,
        ← String.append_assoc]

/-- C3 (amended): the settings text is the fixed header followed by exactly
one line per entry of the settings map, in map order; each line is `'$'`, the
name left-justified to the widest name plus one, the formatted value
left-justified to the widest formatted value plus one, and `';'` — with both
column widths computed from the content of that same file.  (Recognized
setting names that have no entry in the map — by default `LATENCY`, `OMP`,
`NET_FREQ_UPD` — produce no line.) -/
theorem get_settings_str_lines {Sys Ctrl Dist Obs : Type}
    (e : Experiment Sys Ctrl Dist Obs) :
    Experiment.get_settings_str e =
      "# Simulation settings\n\n" ++
        String.join (e.settings.map fun p =>
          "$" ++ Experiment.ljust p.1 (Experiment.setting_width e.settings) ++
            Experiment.ljust (val2str p.2) (Experiment.val_width e.settings) ++
            ";\n") :=
  foldl_append_text e.settings
    (fun p =>
      "$" ++ Experiment.ljust p.1 (Experiment.setting_width e.settings) ++
        Experiment.ljust (val2str p.2) (Experiment.val_width e.settings) ++
        ";\n")
    "# Simulation settings\n\n"

set_option maxRecDepth 100000 in
/-- C3 counterexample: `LATENCY` is a recognized setting name, yet the
settings text of a freshly constructed experiment contains no `$LATENCY`
line at all — the file has one line per settings-map entry, not one line per
recognized setting name. -/
theorem get_settings_str_missing_setting_cex :
    "LATENCY" ∈ Experiment.setting_names ∧
      hasInfixChars (Experiment.get_settings_str expNat).data
        "$LATENCY".data = false := by
  constructor
  · decide
  · decide

/-- The characters a fixed-point rendering may contain. -/
def okChars : List Char :=
  ['0', '1', '2', '3', '4', '5', '6', '7', '8', '9', '-', '.', ' ']

theorem natDigitsAux_lt (fuel n : ℕ) : ∀ d ∈ natDigitsAux fuel n, d < 10 := by
  induction fuel generalizing n with
  | zero => intro d hd; simp [natDigitsAux] at hd
  | succ f ih =>
      intro d hd
      rw [natDigitsAux] at hd
      by_cases h : n = 0
      · rw [if_pos h] at hd
        exact absurd hd (List.not_mem_nil d)
      · rw [if_neg h] at hd
        rcases List.mem_cons.mp hd with rfl | hd
        · exact Nat.mod_lt _ (by norm_num)
        · exact ih _ _ hd

theorem digitChar_mem_okChars {d : ℕ} (h : d < 10) : digitChar d ∈ okChars := by
  interval_cases d <;> decide

theorem natChars_sub (n : ℕ) : ∀ c ∈ natChars n, c ∈ okChars := by
  intro c hc
  unfold natChars at hc
  by_cases h : n = 0
  · rw [if_pos h] at hc
    simp at hc
    subst hc
    decide
  · rw [if_neg h] at hc
    rw [List.mem_reverse] at hc
    obtain ⟨d, hd, rfl⟩ := List.mem_map.mp hc
    exact digitChar_mem_okChars (natDigitsAux_lt n n d hd)

theorem mem_data_format {d : Dec} {c : Char}
    (hc : c ∈ (format_float_positional d).data) : c ∈ okChars := by
  simp only [format_float_positional, String.data_append, data_mk,
    List.mem_append] at hc
  rcases hc with ((hc | hc) | hc) | hc
  · split at hc
    · have h1 : ("-" : String).data = ['-'] := rfl
      rw [h1] at hc
      simp at hc
      subst hc
      decide
    · have h1 : ("" : String).data = [] := rfl
      rw [h1] at hc
      exact absurd hc (List.not_mem_nil c)
  · have h2 := List.mem_of_mem_take hc
    rcases List.mem_append.mp h2 with h3 | h3
    · rw [List.eq_of_mem_replicate h3]
      decide
    · exact natChars_sub _ _ h3
  · simp at hc
    subst hc
    decide
  · have h2 := List.mem_of_mem_drop hc
    rcases List.mem_append.mp h2 with h3 | h3
    · rw [List.eq_of_mem_replicate h3]
      decide
    · exact natChars_sub _ _ h3

theorem mem_data_joinSep {l : List String} {c : Char}
    (hl : ∀ s ∈ l, ∀ c' ∈ s.data, c' ∈ okChars)
    (hc : c ∈ (joinSep l).data) : c ∈ okChars := by
  induction l with
  | nil =>
      have h0 : (joinSep ([] : List String)).data = [] := rfl
      rw [h0] at hc
      exact absurd hc (List.not_mem_nil c)
  | cons s t ih =>
      cases t with
      | nil => exact hl s (by simp) c hc
      | cons u rest =>
          rw [show joinSep (s :: u :: rest) = s ++ " " ++ joinSep (u :: rest)
            from rfl] at hc
          simp only [String.data_append, List.mem_append] at hc
          rcases hc with (hc | hc) | hc
          · exact hl s (by simp) c hc
          · simp at hc
            subst hc
            decide
          · exact ih (fun s' hs' => hl s' (List.mem_cons_of_mem _ hs')) hc

theorem okChars_not_exp {c : Char} (h : c ∈ okChars) :
    (c == 'e' || c == 'E') = false := by
  fin_cases h <;> decide

/-- C4: the rendering of every numeric setting value — scalar or tuple —
contains no scientific-notation exponent marker, and a tuple value renders as
its components' fixed-point forms joined by single spaces. -/
theorem val2str_numeric_fixed_point (v : SettingVal)
    (h : v.isNumeric = true) :
    hasExpMarker (val2str v) = false ∧
    ∀ ds, v = SettingVal.tup ds →
      val2str v = joinSep (ds.map format_float_positional) := by
  constructor
  · unfold hasExpMarker
    rw [List.any_eq_false]
    intro c hc
    have hok : c ∈ okChars := by
      cases v with
      | str s => simp [SettingVal.isNumeric] at h
      | num d => exact mem_data_format hc
      | tup ds =>
          refine mem_data_joinSep ?_ hc
          intro s hs c' hc'
          obtain ⟨dd, _, rfl⟩ := List.mem_map.mp hs
          exact mem_data_format hc'
    simp [okChars_not_exp hok]
  · intro ds hds
    subst hds
    rfl

/-- C4 witness: a concrete tuple value renders without any exponent
marker. -/
theorem val2str_numeric_fixed_point_witness :
    hasExpMarker (val2str (SettingVal.tup [⟨1, 3⟩, ⟨-25, 1⟩])) = false :=
  (val2str_numeric_fixed_point (SettingVal.tup [⟨1, 3⟩, ⟨-25, 1⟩]) rfl).1

section Observables

variable {Sys Ctrl Dist Obs : Type}

theorem add_observables_valid_observables [LinearOrder Obs] (c : List Obs)
    (e : Experiment Sys Ctrl Dist Obs) :
    List.Perm (Experiment.add_observables (c.map PyArg.val) e).1.observables
      (c ++ e.observables) := by
  induction c generalizing e with
  | nil => simp [Experiment.add_observables]
  | cons o t ih =>
      simp only [List.map_cons, Experiment.add_observables]
      refine (ih _).trans ?_
      exact (List.Perm.append_left t
        (List.perm_orderedInsert _ o e.observables)).trans List.perm_middle

theorem add_observable_calls_observables [LinearOrder Obs]
    (calls : List (List Obs)) (e : Experiment Sys Ctrl Dist Obs) :
    List.Perm (add_observable_calls calls e).observables
      (calls.flatten ++ e.observables) := by
  induction calls generalizing e with
  | nil => simp [add_observable_calls]
  | cons c t ih =>
      have step : add_observable_calls (c :: t) e =
          add_observable_calls t
            (Experiment.add_observables (c.map PyArg.val) e).1 := rfl
      rw [step, List.flatten_cons]
      refine (ih _).trans ?_
      refine (List.Perm.append_left _
        (add_observables_valid_observables c e)).trans ?_
      rw [← List.append_assoc]
      exact List.Perm.append_right _ List.perm_append_comm

theorem insertionSort_eq_of_perm {α : Type} [LinearOrder α] {l₁ l₂ : List α}
    (h : List.Perm l₁ l₂) :
    List.insertionSort (· ≤ ·) l₁ = List.insertionSort (· ≤ ·) l₂ :=
  List.eq_of_perm_of_sorted
    ((List.perm_insertionSort _ _).trans
      (h.trans (List.perm_insertionSort _ _).symm))
    (List.sorted_insertionSort _ _) (List.sorted_insertionSort _ _)

theorem dedup_perm_of_toFinset_eq {α : Type} [DecidableEq α] {l₁ l₂ : List α}
    (h : l₁.toFinset = l₂.toFinset) : List.Perm l₁.dedup l₂.dedup := by
  have hv := congrArg Finset.val h
  rw [List.toFinset_val, List.toFinset_val] at hv
  exact Multiset.coe_eq_coe.mp hv

end Observables

/-- C1: starting from an empty registry, the observables text after any
sequence of valid `add_observables` calls is exactly the serialization of the
deduplicated, sorted set of all observables ever added — so two call
sequences adding equal sets (in any order, with any duplicates) produce the
identical text. -/
theorem get_observables_str_set_determined {Sys Ctrl Dist Obs : Type}
    [LinearOrder Obs] (obsStr : Obs → String)
    (e₁ e₂ : Experiment Sys Ctrl Dist Obs) (calls₁ calls₂ : List (List Obs))
    (h₁ : e₁.observables = []) (h₂ : e₂.observables = [])
    (hset : calls₁.flatten.toFinset = calls₂.flatten.toFinset) :
    Experiment.get_observables_str obsStr (add_observable_calls calls₁ e₁) =
      String.join ((List.insertionSort (· ≤ ·) calls₁.flatten.dedup).map
        fun o => obsStr o ++ "\n") ∧
    Experiment.get_observables_str obsStr (add_observable_calls calls₁ e₁) =
      Experiment.get_observables_str obsStr (add_observable_calls calls₂ e₂) := by
  have key : ∀ (e : Experiment Sys Ctrl Dist Obs) (calls : List (List Obs)),
      e.observables = [] →
      Experiment.get_observables_str obsStr (add_observable_calls calls e) =
        String.join ((List.insertionSort (· ≤ ·) calls.flatten.dedup).map
          fun o => obsStr o ++ "\n") := by
    intro e calls he
    have hp := add_observable_calls_observables calls e
    rw [he, List.append_nil] at hp
    unfold Experiment.get_observables_str
    rw [insertionSort_eq_of_perm hp.dedup]
  refine ⟨key e₁ calls₁ h₁, ?_⟩
  rw [key e₁ calls₁ h₁, key e₂ calls₂ h₂,
    insertionSort_eq_of_perm (dedup_perm_of_toFinset_eq hset)]

/-- C1 witness: two different insertion orders with different duplicates but
equal underlying sets serialize identically. -/
theorem get_observables_str_set_determined_witness :
    Experiment.get_observables_str toString
        (add_observable_calls [[2, 1], [1, 3]] expNat) =
      Experiment.get_observables_str toString
        (add_observable_calls [[3], [2, 1, 2]] expNat) :=
  (get_observables_str_set_determined toString expNat expNat
    [[2, 1], [1, 3]] [[3], [2, 1, 2]] rfl rfl (by decide)).2

section Randomizations

variable {Sys Ctrl Dist Obs : Type}

theorem add_observables_randomizations [LinearOrder Obs]
    (args : List (PyArg Obs)) (e : Experiment Sys Ctrl Dist Obs) :
    (Experiment.add_observables args e).1.randomizations = e.randomizations := by
  induction args generalizing e with
  | nil => rfl
  | cons a t ih =>
      cases a with
      | val o => exact ih _
      | invalid => rfl

theorem length_flatMap_const {α β : Type} (l : List α) (f : α → List β)
    (c : ℕ) (h : ∀ a ∈ l, (f a).length = c) :
    (l.flatMap f).length = l.length * c := by
  induction l with
  | nil => simp
  | cons a t ih =>
      rw [List.flatMap_cons, List.length_append, h a (by simp),
        ih fun x hx => h x (by simp [hx]), List.length_cons]
      ring

theorem case_dirs_length (now : String) (e : Experiment Sys Ctrl Dist Obs) :
    (Experiment.case_dirs now e).length =
      e.systems.length * e.disturbances.length * e.controllers.length *
        e.randomizations.length := by
  unfold Experiment.case_dirs
  rw [length_flatMap_const _ _
    (e.disturbances.length * (e.controllers.length * e.randomizations.length))
    (fun sys _ => by
      rw [length_flatMap_const _ _
        (e.controllers.length * e.randomizations.length)
        (fun dis _ => by
          rw [length_flatMap_const _ _ e.randomizations.length
            (fun con _ => by simp)])])]
  ring

end Randomizations

/-- C9: a fresh experiment's randomizations axis is exactly one entry tagged
`Not random`; `add_randomization` is a no-op and no other operation touches
the axis; consequently, whenever the axis has its invariant length one, the
case enumeration of `init_files_and_dirs` lists exactly
`|systems| * |disturbance batches| * |controller batches|` case
directories. -/
theorem randomizations_axis_invariant {Sys Ctrl Dist Obs : Type}
    [LinearOrder Dist] [LinearOrder Obs] (nm dll : String) (reps : ℕ)
    (doc : Bool) (e : Experiment Sys Ctrl Dist Obs) (now desc : String)
    (s : PyArg Sys) (dargs : List (PyArg Dist)) (oargs : List (PyArg Obs))
    (cargs : List (PyArg Ctrl)) (upd : List (String × SettingVal)) (hz : ℚ) :
    (Experiment.init Sys Ctrl Dist Obs nm dll reps doc).randomizations =
      [("Not random", "Not random")] ∧
    Experiment.add_randomization e = e ∧
    (Experiment.describe desc e).1.randomizations = e.randomizations ∧
    (Experiment.add_system desc s e).1.randomizations = e.randomizations ∧
    (Experiment.add_disturbances desc dargs e).1.randomizations =
      e.randomizations ∧
    (Experiment.add_observables oargs e).1.randomizations = e.randomizations ∧
    (Experiment.add_controllers desc cargs e).1.randomizations =
      e.randomizations ∧
    (Experiment.set_RAMSES_settings upd e).1.randomizations =
      e.randomizations ∧
    (Experiment.set_solver_and_horizon upd hz e).1.randomizations =
      e.randomizations ∧
    (e.randomizations.length = 1 →
      (Experiment.case_dirs now e).length =
        e.systems.length * e.disturbances.length * e.controllers.length) := by
  refine ⟨rfl, rfl, ?_, ?_, ?_, add_observables_randomizations oargs e, ?_,
    rfl, ?_, ?_⟩
  · unfold Experiment.describe
    split <;> rfl
  · unfold Experiment.add_system
    split
    · rfl
    · cases s <;> rfl
  · unfold Experiment.add_disturbances
    split
    · rfl
    · split <;> rfl
  · unfold Experiment.add_controllers
    split
    · rfl
    · split <;> rfl
  · unfold Experiment.set_solver_and_horizon
    split <;> rfl
  · intro h1
    rw [case_dirs_length, h1, mul_one]

/-- A concrete experiment with two systems, one disturbance batch and one
controller batch. -/
def expW9 : Experiment ℕ ℕ ℕ ℕ :=
  {expNat with
    systems := [("sysA", 0), ("sysB", 1)],
    disturbances := [("dst", [1])],
    controllers := [("ctl", [0])]}

/-- C9 witness: with the untouched singleton randomizations axis, the case
enumeration has size 2 * 1 * 1. -/
theorem randomizations_axis_invariant_witness :
    (Experiment.case_dirs "[ts]" expW9).length =
      expW9.systems.length * expW9.disturbances.length *
        expW9.controllers.length :=
  (randomizations_axis_invariant "a" "b" 1 false expW9 "[ts]" "d"
    (PyArg.val 0) [] [] [] [] 1).2.2.2.2.2.2.2.2.2 (by decide)

theorem runLoop_divergence (eng : Engine) (window vmin vmax : ℚ)
    (ts : List ℚ) (hsort : ts.Pairwise (· < ·))
    (hfail : ∀ t, eng.contSimFails t = false) (tk : ℚ) (htk : tk ∈ ts)
    (hwin : window < tk)
    (hbad : voltagesOK vmin vmax (eng.volt tk) = false) :
    (runLoop eng window vmin vmax ts).2 = Outcome.abortedOnDivergence ∧
    ∀ t ∈ (runLoop eng window vmin vmax ts).1, t < tk := by
  induction ts with
  | nil => exact absurd htk (List.not_mem_nil tk)
  | cons t rest ih =>
      rw [List.pairwise_cons] at hsort
      by_cases hc : window < t ∧ voltagesOK vmin vmax (eng.volt t) = false
      · rw [runLoop, if_pos hc]
        exact ⟨rfl, fun x hx => absurd hx (List.not_mem_nil x)⟩
      · have htkr : tk ∈ rest := by
          rcases List.mem_cons.mp htk with rfl | h
          · exact absurd ⟨hwin, hbad⟩ hc
          · exact h
        have hr := ih hsort.2 htkr
        rw [runLoop, if_neg hc, if_neg (by simp [hfail t])]
        refine ⟨hr.1, ?_⟩
        intro x hx
        rcases List.mem_cons.mp hx with rfl | hx
        · exact hsort.1 tk htkr
        · exact hr.2 x hx

theorem timeValues_pairwise (H h : ℚ) (hh : 0 < h) :
    (timeValues H h).Pairwise (· < ·) := by
  unfold timeValues
  exact List.Pairwise.map _
    (fun a b hab => mul_lt_mul_of_pos_right (by exact_mod_cast hab) hh)
    (List.pairwise_lt_range _)

/-- C7: in the run loop, if the engine itself never fails and some step time
`tk` past the disturbance-observation window has a monitored voltage outside
the configured open error band, then the case ends in the
aborted-on-divergence outcome and the engine is never instructed to advance
to `tk` or to any later time (every `contSim` call strictly precedes
`tk`). -/
theorem run_loop_divergence_abort {Sys Ctrl Dist Obs : Type} (eng : Engine)
    (e : Experiment Sys Ctrl Dist Obs) (hstep : 0 < e.pyramses_step)
    (hfail : ∀ t, eng.contSimFails t = false) (tk : ℚ)
    (htk : tk ∈ timeValues e.horizon e.pyramses_step)
    (hwin : e.disturbance_window < tk)
    (hbad : voltagesOK e.error_voltages.1 e.error_voltages.2
      (eng.volt tk) = false) :
    (runCase eng e).2 = Outcome.abortedOnDivergence ∧
    ∀ t ∈ (runCase eng e).1, t < tk := by
  unfold runCase
  exact runLoop_divergence eng _ _ _ _
    (timeValues_pairwise _ _ hstep) hfail tk htk hwin hbad

/-- An engine whose monitored bus voltage is 0.5 pu at every query and whose
stepping never raises. -/
def engW : Engine := ⟨fun _ => [(1 : ℚ) / 2], fun _ => false⟩

/-- A concrete experiment with a 6-second horizon. -/
def expW7 : Experiment ℕ ℕ ℕ ℕ := {expNat with horizon := 6}

/-- C7 witness: with a voltage of 0.5 pu — below the 0.7 lower error bound —
at step time 253 * 0.02 = 5.06 s > the 5 s window, the case aborts on
divergence. -/
theorem run_loop_divergence_abort_witness :
    (runCase engW expW7).2 = Outcome.abortedOnDivergence :=
  (run_loop_divergence_abort engW expW7
    (by norm_num [expW7, expNat, Experiment.init]) (fun t => rfl)
    (((253 : ℕ) : ℚ) * expW7.pyramses_step)
    (by
      have h1 : (253 : ℕ) < Int.toNat ⌈expW7.horizon / expW7.pyramses_step⌉ := by
        norm_num [expW7, expNat, Experiment.init]
      exact List.mem_map.mpr ⟨253, List.mem_range.mpr h1, rfl⟩)
    (by norm_num [expW7, expNat, Experiment.init])
    (by norm_num [voltagesOK, engW, expW7, expNat, Experiment.init])).1

end ExperimentSpec
